import Mathlib

/-!
Verification of the Halo backend's real-time transcription subsystem.

This file is a shallow embedding, in Lean 4, of the code under
`app/services/connection.py` (the WebSocket `ConnectionManager`),
`app/routers/audio.py` (the `Transcriber` and the recording-state
handlers) and `app/routers/user.py` (the per-connection WebSocket loop
and its disconnect handler), together with theorems settling the frozen
claims about that code.

Python dictionaries are embedded as insertion-ordered association lists
with dictionary (first-match) lookup semantics; timestamps are embedded
as integer counts of seconds; strings stay strings.  Fallible external
actions (a WebSocket send, a Deepgram connect) are parametrised by
explicit outcome values, and side effects (sleeps, log lines, broadcast
events) are returned as explicit lists.
-/

namespace Halo

/-! ### Association-list maps (the embedding of Python `dict`)

`getA` is `d[k]`/`d.get(k)` (first matching key), `setA` is `d[k] = v`
(overwrite in place, append if absent, preserving insertion order) and
`eraseA` is `del d[k]`.  All lists built by these operations from `[]`
have distinct keys, matching real dictionaries. -/

def getA {α β : Type} [DecidableEq α] (k : α) : List (α × β) → Option β
  | [] => none
  | p :: l => if p.1 = k then some p.2 else getA k l

def setA {α β : Type} [DecidableEq α] (k : α) (v : β) : List (α × β) → List (α × β)
  | [] => [(k, v)]
  | p :: l => if p.1 = k then (k, v) :: l else p :: setA k v l

def eraseA {α β : Type} [DecidableEq α] (k : α) : List (α × β) → List (α × β)
  | [] => []
  | p :: l => if p.1 = k then eraseA k l else p :: eraseA k l

theorem getA_setA_self {α β : Type} [DecidableEq α] (k : α) (v : β) (l : List (α × β)) :
    getA k (setA k v l) = some v := by
  induction l with
  | nil => simp [getA, setA]
  | cons p l ih =>
    by_cases h : p.1 = k
    · simp [getA, setA, h]
    · simp [getA, setA, h, ih]

theorem getA_setA_ne {α β : Type} [DecidableEq α] {k k' : α} (v : β) (l : List (α × β))
    (h : k' ≠ k) : getA k' (setA k v l) = getA k' l := by
  induction l with
  | nil => simp [getA, setA, Ne.symm h]
  | cons p l ih =>
    by_cases hp : p.1 = k
    · simp [getA, setA, hp, Ne.symm h]
    · by_cases hp' : p.1 = k'
      · simp [getA, setA, hp, hp', h]
      · simp [getA, setA, hp, hp', ih]

theorem getA_eraseA_self {α β : Type} [DecidableEq α] (k : α) (l : List (α × β)) :
    getA k (eraseA k l) = (none : Option β) := by
  induction l with
  | nil => simp [getA, eraseA]
  | cons p l ih =>
    by_cases h : p.1 = k
    · simp [eraseA, h, ih]
    · simp [getA, eraseA, h, ih]

theorem getA_eraseA_ne {α β : Type} [DecidableEq α] {k k' : α} (l : List (α × β))
    (h : k' ≠ k) : getA k' (eraseA k l) = getA k' l := by
  induction l with
  | nil => simp [eraseA]
  | cons p l ih =>
    by_cases hp : p.1 = k
    · simp [getA, eraseA, hp, ih, Ne.symm h]
    · by_cases hp' : p.1 = k'
      · simp [getA, eraseA, hp, hp', h]
      · simp [getA, eraseA, hp, hp', ih]

theorem getA_some_mem {α β : Type} [DecidableEq α] {k : α} {v : β} {l : List (α × β)}
    (h : getA k l = some v) : (k, v) ∈ l := by
  induction l with
  | nil => simp [getA] at h
  | cons p l ih =>
    by_cases hp : p.1 = k
    · simp [getA, hp] at h
      have hkv : (k, v) = p := by rw [← hp, ← h]
      rw [hkv]
      exact List.mem_cons_self p l
    · simp [getA, hp] at h
      right
      exact ih h

theorem mem_getA_isSome {α β : Type} [DecidableEq α] {k : α} {v : β} {l : List (α × β)}
    (h : (k, v) ∈ l) : (getA k l).isSome = true := by
  induction l with
  | nil => simp at h
  | cons p l ih =>
    rcases List.mem_cons.mp h with h1 | h2
    · simp [getA, ← h1]
    · by_cases hp : p.1 = k
      · simp [getA, hp]
      · simp [getA, hp]
        exact ih h2

theorem mem_setA {α β : Type} [DecidableEq α] {k : α} {v : β} {p : α × β} {l : List (α × β)}
    (h : p ∈ setA k v l) : p = (k, v) ∨ p ∈ l := by
  induction l with
  | nil => simp [setA] at h; simp [h]
  | cons q l ih =>
    by_cases hq : q.1 = k
    · simp [setA, hq] at h
      rcases h with h1 | h2
      · left; simp [h1]
      · right; exact List.mem_cons_of_mem _ h2
    · simp [setA, hq] at h
      rcases h with h1 | h2
      · right; exact List.mem_cons.mpr (Or.inl h1)
      · rcases ih h2 with h3 | h4
        · left; exact h3
        · right; exact List.mem_cons_of_mem _ h4

theorem mem_eraseA {α β : Type} [DecidableEq α] {k : α} {p : α × β} {l : List (α × β)}
    (h : p ∈ eraseA k l) : p ∈ l ∧ p.1 ≠ k := by
  induction l with
  | nil => simp [eraseA] at h
  | cons q l ih =>
    by_cases hq : q.1 = k
    · simp [eraseA, hq] at h
      have := ih h
      exact ⟨List.mem_cons_of_mem _ this.1, this.2⟩
    · simp [eraseA, hq] at h
      rcases h with h1 | h2
      · refine ⟨List.mem_cons.mpr (Or.inl h1), ?_⟩
        rw [h1]
        exact hq
      · have := ih h2
        exact ⟨List.mem_cons_of_mem _ this.1, this.2⟩

/-! ### ConnectionManager (`app/services/connection.py`)

State: `active_connections : Dict[user_id, Dict[websocket_session_id, WebSocket]]`
and `last_activity : Dict[user_id, Dict[websocket_session_id, datetime]]`.
The inner `active_connections` dict is embedded as its ordered key list
(the WebSocket handles themselves carry no state the claims read; a
send's success or failure is an explicit outcome parameter `fails`).
`datetime.now()` is the explicit parameter `now`. -/

structure ConnectionManager where
  active_connections : List (String × List String)
  last_activity : List (String × List (String × Nat))
deriving DecidableEq, Repr

/-- Key insertion for the inner connections dict: `d[sid] = ws` keeps the
key's position when present and appends it when absent. -/
def insertKey (sid : String) (conns : List String) : List String :=
  if sid ∈ conns then conns else conns ++ [sid]

/-- `ConnectionManager.connect`: ensure both outer keys exist, then register
the connection and record its activity time. -/
def connect (sid uid : String) (now : Nat) (m : ConnectionManager) : ConnectionManager :=
  let a0 := match getA uid m.active_connections with
    | none => setA uid [] m.active_connections
    | some _ => m.active_connections
  let l0 := match getA uid m.last_activity with
    | none => setA uid [] m.last_activity
    | some _ => m.last_activity
  let conns := (getA uid a0).getD []
  let acts := (getA uid l0).getD []
  { active_connections := setA uid (insertKey sid conns) a0
    last_activity := setA uid (setA sid now acts) l0 }

/-- `ConnectionManager._remove_connection`: drop the (uid, sid) registration
and its activity entry, deleting the user's outer keys when the last
connection goes; a no-op when the pair is not registered.  (Closing the
websocket has no observable effect on the registry.) -/
def removeConnection (sid uid : String) (m : ConnectionManager) : ConnectionManager :=
  match getA uid m.active_connections with
  | none => m
  | some conns =>
    if sid ∈ conns then
      let conns' := conns.erase sid
      let la' := match getA uid m.last_activity with
        | none => m.last_activity
        | some acts =>
          if (getA sid acts).isSome then setA uid (eraseA sid acts) m.last_activity
          else m.last_activity
      if conns' = [] then
        { active_connections := eraseA uid m.active_connections
          last_activity := eraseA uid la' }
      else
        { active_connections := setA uid conns' m.active_connections
          last_activity := la' }
    else m

/-- `ConnectionManager.disconnect` delegates to `_remove_connection`. -/
def disconnect (sid uid : String) (m : ConnectionManager) : ConnectionManager :=
  removeConnection sid uid m

/-- Activity touch inside `broadcast`: `last_activity[uid][sid] = now`,
guarded by both keys being present. -/
def touchActivity (uid sid : String) (now : Nat)
    (la : List (String × List (String × Nat))) : List (String × List (String × Nat)) :=
  match getA uid la with
  | none => la
  | some acts => if (getA sid acts).isSome then setA uid (setA sid now acts) la else la

/-- `ConnectionManager.broadcast`: send the message, tagged with
`was_requested = (sid == requesting_websocket_session_id)`, to every
connection registered under `uid`; a send whose transport fails
(`fails sid = true`) delivers nothing, and the failed connections are
removed after the loop.  Returns the new state, the list of successful
deliveries `(sid, was_requested)` in iteration order, and the count of
successful deliveries. -/
def broadcast (req uid : String) (fails : String → Bool) (now : Nat)
    (m : ConnectionManager) : ConnectionManager × List (String × Bool) × Nat :=
  match getA uid m.active_connections with
  | none => (m, [], 0)
  | some conns =>
    let ok := conns.filter (fun sid => !(fails sid))
    let failed := conns.filter (fun sid => fails sid)
    let la := ok.foldl (fun acc sid => touchActivity uid sid now acc) m.last_activity
    let m2 := failed.foldl (fun acc sid => removeConnection sid uid acc)
      { active_connections := m.active_connections, last_activity := la }
    (m2, ok.map (fun sid => (sid, sid == req)), ok.length)

/-- `ConnectionManager._check_connections` (the health-check pass): remove
every registered connection whose transport reports a disconnected state;
`dead` lists the (uid, sid) pairs found disconnected (removal of an
unregistered pair is a no-op). -/
def healthCheck (dead : List (String × String)) (m : ConnectionManager) : ConnectionManager :=
  dead.foldl (fun acc p => removeConnection p.2 p.1 acc) m

/-- C1: for every registry state and every call
`broadcast(requestingConnectionId, userId, event)`: every delivery goes to a
connection registered under `userId` (no other user's connection receives the
event), every connection registered under `userId` whose transport does not
fail receives the event, a delivery's `was_requested` flag is `true` exactly
when that connection's id equals the requesting id, and the call returns the
number of successful deliveries. -/
theorem broadcast_delivery_spec :
    ∀ (m : ConnectionManager) (req uid : String) (fails : String → Bool) (now : Nat),
      (∀ p ∈ (broadcast req uid fails now m).2.1,
          ∃ conns, getA uid m.active_connections = some conns ∧ p.1 ∈ conns) ∧
      (∀ conns, getA uid m.active_connections = some conns →
          ∀ sid ∈ conns, fails sid = false →
            (sid, sid == req) ∈ (broadcast req uid fails now m).2.1) ∧
      (∀ p ∈ (broadcast req uid fails now m).2.1, (p.2 = true ↔ p.1 = req)) ∧
      (broadcast req uid fails now m).2.2 = (broadcast req uid fails now m).2.1.length := by
  intro m req uid fails now
  cases h : getA uid m.active_connections with
  | none =>
    refine ⟨?_, ?_, ?_, ?_⟩ <;> simp [broadcast, h]
  | some conns =>
    refine ⟨?_, ?_, ?_, ?_⟩
    · intro p hp
      simp only [broadcast, h, List.mem_map, List.mem_filter] at hp
      obtain ⟨sid, ⟨hmem, _⟩, hpe⟩ := hp
      exact ⟨conns, rfl, by rw [← hpe]; exact hmem⟩
    · intro conns' hconns' sid hsid hfail
      have hc : conns' = conns := (Option.some_inj.mp hconns').symm
      subst hc
      simp only [broadcast, h, List.mem_map, List.mem_filter]
      exact ⟨sid, ⟨hsid, by simp [hfail]⟩, rfl⟩
    · intro p hp
      simp only [broadcast, h, List.mem_map, List.mem_filter] at hp
      obtain ⟨sid, _, hpe⟩ := hp
      rw [← hpe]
      simp
    · simp [broadcast, h]

/-! ### The connection-registry invariant (claim C10) -/

/-- Registry invariant: every `userId` key present in `active_connections`
maps to a non-empty connection set, and every `(userId, connectionId)` pair
recorded in `last_activity` is also present in `active_connections`. -/
def Inv (m : ConnectionManager) : Prop :=
  (∀ u l, getA u m.active_connections = some l → l ≠ []) ∧
  (∀ u acts, getA u m.last_activity = some acts →
      ∀ p ∈ acts, ∃ l, getA u m.active_connections = some l ∧ p.1 ∈ l)

theorem insertKey_ne_nil (sid : String) (conns : List String) : insertKey sid conns ≠ [] := by
  unfold insertKey
  split
  · exact List.ne_nil_of_mem (by assumption)
  · simp

theorem mem_insertKey_self (sid : String) (conns : List String) : sid ∈ insertKey sid conns := by
  unfold insertKey
  split
  · assumption
  · simp

theorem mem_insertKey_of_mem {x sid : String} {conns : List String} (h : x ∈ conns) :
    x ∈ insertKey sid conns := by
  unfold insertKey
  split
  · exact h
  · exact List.mem_append_left _ h

theorem connect_active_self (sid uid : String) (now : Nat) (m : ConnectionManager) :
    getA uid (connect sid uid now m).active_connections =
      some (insertKey sid ((getA uid m.active_connections).getD [])) := by
  simp only [connect]
  cases ha : getA uid m.active_connections <;>
    cases hl : getA uid m.last_activity <;>
      simp [getA_setA_self, ha]

theorem connect_active_ne {u uid : String} (sid : String) (now : Nat) (m : ConnectionManager)
    (h : u ≠ uid) :
    getA u (connect sid uid now m).active_connections = getA u m.active_connections := by
  simp only [connect]
  cases ha : getA uid m.active_connections <;>
    cases hl : getA uid m.last_activity <;>
      simp [getA_setA_ne _ _ h]

theorem connect_last_self (sid uid : String) (now : Nat) (m : ConnectionManager) :
    getA uid (connect sid uid now m).last_activity =
      some (setA sid now ((getA uid m.last_activity).getD [])) := by
  simp only [connect]
  cases ha : getA uid m.active_connections <;>
    cases hl : getA uid m.last_activity <;>
      simp [getA_setA_self, hl]

theorem connect_last_ne {u uid : String} (sid : String) (now : Nat) (m : ConnectionManager)
    (h : u ≠ uid) :
    getA u (connect sid uid now m).last_activity = getA u m.last_activity := by
  simp only [connect]
  cases ha : getA uid m.active_connections <;>
    cases hl : getA uid m.last_activity <;>
      simp [getA_setA_ne _ _ h]

theorem inv_connect {m : ConnectionManager} (sid uid : String) (now : Nat) (hm : Inv m) :
    Inv (connect sid uid now m) := by
  obtain ⟨h1, h2⟩ := hm
  constructor
  · intro u l hget
    by_cases hu : u = uid
    · subst hu
      rw [connect_active_self] at hget
      rw [← Option.some_inj.mp hget]
      exact insertKey_ne_nil _ _
    · rw [connect_active_ne sid now m hu] at hget
      exact h1 u l hget
  · intro u acts hget p hp
    by_cases hu : u = uid
    · subst hu
      rw [connect_last_self] at hget
      rw [← Option.some_inj.mp hget] at hp
      refine ⟨insertKey sid ((getA u m.active_connections).getD []), connect_active_self sid u now m, ?_⟩
      rcases mem_setA hp with hps | hpm
      · rw [hps]
        exact mem_insertKey_self _ _
      · cases hl : getA u m.last_activity with
        | none =>
          rw [hl] at hpm
          simp at hpm
        | some acts0 =>
          rw [hl] at hpm
          obtain ⟨l0, hl0, hpl0⟩ := h2 u acts0 hl p hpm
          rw [hl0]
          exact mem_insertKey_of_mem hpl0
    · rw [connect_last_ne sid now m hu] at hget
      obtain ⟨l, hl, hpl⟩ := h2 u acts hget p hp
      exact ⟨l, by rw [connect_active_ne sid now m hu]; exact hl, hpl⟩

theorem inv_remove {m : ConnectionManager} (sid uid : String) (hm : Inv m) :
    Inv (removeConnection sid uid m) := by
  obtain ⟨h1, h2⟩ := hm
  cases hma : getA uid m.active_connections with
  | none =>
    have hr : removeConnection sid uid m = m := by
      simp [removeConnection, hma]
    rw [hr]
    exact ⟨h1, h2⟩
  | some conns =>
    by_cases hmem : sid ∈ conns
    case neg =>
      have hr : removeConnection sid uid m = m := by
        simp [removeConnection, hma, hmem]
      rw [hr]
      exact ⟨h1, h2⟩
    case pos =>
      have hla' : ∀ u, u ≠ uid →
          getA u (match getA uid m.last_activity with
            | none => m.last_activity
            | some acts =>
              if (getA sid acts).isSome then setA uid (eraseA sid acts) m.last_activity
              else m.last_activity) = getA u m.last_activity := by
        intro u hu
        cases hml : getA uid m.last_activity with
        | none => rfl
        | some acts =>
          by_cases hsa : (getA sid acts).isSome
          · simp only [hsa, if_true]
            exact getA_setA_ne _ _ hu
          · simp [hsa]
      have hlaself : ∀ acts', getA uid (match getA uid m.last_activity with
            | none => m.last_activity
            | some acts =>
              if (getA sid acts).isSome then setA uid (eraseA sid acts) m.last_activity
              else m.last_activity) = some acts' →
          ∀ p ∈ acts', p ∈ ((getA uid m.last_activity).getD []) ∧ p.1 ≠ sid := by
        intro acts' hget p hp
        cases hml : getA uid m.last_activity with
        | none =>
          rw [hml] at hget
          have hget2 : getA uid m.last_activity = some acts' := hget
          rw [hml] at hget2
          cases hget2
        | some acts =>
          rw [hml] at hget
          have hget2 : getA uid (if (getA sid acts).isSome
              then setA uid (eraseA sid acts) m.last_activity
              else m.last_activity) = some acts' := hget
          by_cases hsa : (getA sid acts).isSome
          · rw [if_pos hsa, getA_setA_self] at hget2
            rw [← Option.some_inj.mp hget2] at hp
            rw [Option.getD_some]
            exact mem_eraseA hp
          · rw [if_neg hsa, hml] at hget2
            rw [← Option.some_inj.mp hget2] at hp
            rw [Option.getD_some]
            refine ⟨hp, ?_⟩
            intro hps
            refine hsa (mem_getA_isSome (v := p.2) ?_)
            rw [← hps, Prod.mk.eta]
            exact hp
      by_cases hnil : conns.erase sid = []
      · have hr : removeConnection sid uid m =
            { active_connections := eraseA uid m.active_connections
              last_activity := eraseA uid (match getA uid m.last_activity with
                | none => m.last_activity
                | some acts =>
                  if (getA sid acts).isSome then setA uid (eraseA sid acts) m.last_activity
                  else m.last_activity) } := by
          simp only [removeConnection, hma, hmem, if_true, hnil]
        rw [hr]
        constructor
        · intro u l hget
          by_cases hu : u = uid
          · subst hu
            rw [getA_eraseA_self] at hget
            cases hget
          · rw [getA_eraseA_ne _ hu] at hget
            exact h1 u l hget
        · intro u acts' hget p hp
          by_cases hu : u = uid
          · subst hu
            rw [getA_eraseA_self] at hget
            cases hget
          · rw [getA_eraseA_ne _ hu, hla' u hu] at hget
            obtain ⟨l, hl, hpl⟩ := h2 u acts' hget p hp
            exact ⟨l, by rw [getA_eraseA_ne _ hu]; exact hl, hpl⟩
      · have hr : removeConnection sid uid m =
            { active_connections := setA uid (conns.erase sid) m.active_connections
              last_activity := (match getA uid m.last_activity with
                | none => m.last_activity
                | some acts =>
                  if (getA sid acts).isSome then setA uid (eraseA sid acts) m.last_activity
                  else m.last_activity) } := by
          simp only [removeConnection, hma, hmem, if_true, hnil]
          simp
        rw [hr]
        constructor
        · intro u l hget
          by_cases hu : u = uid
          · subst hu
            rw [getA_setA_self] at hget
            rw [← Option.some_inj.mp hget]
            exact hnil
          · rw [getA_setA_ne _ _ hu] at hget
            exact h1 u l hget
        · intro u acts' hget p hp
          by_cases hu : u = uid
          · subst hu
            obtain ⟨hpacts, hpne⟩ := hlaself acts' hget p hp
            refine ⟨conns.erase sid, getA_setA_self _ _ _, ?_⟩
            cases hml : getA u m.last_activity with
            | none =>
              rw [hml] at hpacts
              simp at hpacts
            | some acts =>
              rw [hml] at hpacts
              obtain ⟨l, hl, hpl⟩ := h2 u acts hml p hpacts
              rw [hma] at hl
              rw [← Option.some_inj.mp hl] at hpl
              exact (List.mem_erase_of_ne hpne).mpr hpl
          · rw [hla' u hu] at hget
            obtain ⟨l, hl, hpl⟩ := h2 u acts' hget p hp
            exact ⟨l, by rw [getA_setA_ne _ _ hu]; exact hl, hpl⟩

theorem inv_touch {m : ConnectionManager} (uid sid : String) (now : Nat) (hm : Inv m) :
    Inv { active_connections := m.active_connections,
          last_activity := touchActivity uid sid now m.last_activity } := by
  obtain ⟨h1, h2⟩ := hm
  refine ⟨h1, ?_⟩
  intro u acts' hget p hp
  simp only [touchActivity] at hget
  cases hml : getA uid m.last_activity with
  | none =>
    rw [hml] at hget
    exact h2 u acts' hget p hp
  | some acts =>
    rw [hml] at hget
    have hget2 : getA u (if (getA sid acts).isSome
        then setA uid (setA sid now acts) m.last_activity
        else m.last_activity) = some acts' := hget
    by_cases hsa : (getA sid acts).isSome
    · rw [if_pos hsa] at hget2
      by_cases hu : u = uid
      · subst hu
        rw [getA_setA_self] at hget2
        rw [← Option.some_inj.mp hget2] at hp
        rcases mem_setA hp with hps | hpm
        · obtain ⟨t, ht⟩ := Option.isSome_iff_exists.mp hsa
          obtain ⟨l, hl, hpl⟩ := h2 u acts hml (sid, t) (getA_some_mem ht)
          exact ⟨l, hl, by rw [hps]; exact hpl⟩
        · exact h2 u acts hml p hpm
      · rw [getA_setA_ne _ _ hu] at hget2
        exact h2 u acts' hget2 p hp
    · rw [if_neg hsa] at hget2
      exact h2 u acts' hget2 p hp

theorem foldl_preserves {σ χ : Type} {P : σ → Prop} {f : σ → χ → σ}
    (hf : ∀ s x, P s → P (f s x)) : ∀ (l : List χ) (s : σ), P s → P (l.foldl f s) := by
  intro l
  induction l with
  | nil => intro s hs; exact hs
  | cons x l ih => intro s hs; exact ih _ (hf s x hs)

theorem inv_broadcast {m : ConnectionManager} (req uid : String) (fails : String → Bool)
    (now : Nat) (hm : Inv m) : Inv (broadcast req uid fails now m).1 := by
  cases h : getA uid m.active_connections with
  | none =>
    simp only [broadcast, h]
    exact hm
  | some conns =>
    simp only [broadcast, h]
    have hla : Inv (ConnectionManager.mk m.active_connections
        ((conns.filter (fun sid => !(fails sid))).foldl
          (fun acc sid => touchActivity uid sid now acc) m.last_activity)) := by
      refine foldl_preserves
        (P := fun la => Inv { active_connections := m.active_connections, last_activity := la })
        ?_ (conns.filter (fun sid => !(fails sid))) m.last_activity hm
      intro la sid hla0
      exact inv_touch uid sid now hla0
    refine foldl_preserves (P := Inv) ?_ (conns.filter (fun sid => fails sid)) _ hla
    intro acc sid hacc
    exact inv_remove sid uid hacc

theorem inv_healthCheck {m : ConnectionManager} (dead : List (String × String)) (hm : Inv m) :
    Inv (healthCheck dead m) := by
  show Inv (dead.foldl (fun acc p => removeConnection p.2 p.1 acc) m)
  refine foldl_preserves (P := Inv) ?_ dead m hm
  intro acc q hacc
  exact inv_remove q.2 q.1 hacc

/-- C10: the connection registry preserves, under every operation (connect,
disconnect/removal, broadcast with delivery failures, and the health-check
pass), the invariant that every `userId` key present in `active_connections`
maps to a non-empty connection set (a user's entry is deleted with the last
connection), and that every `(userId, connectionId)` pair in `last_activity`
is also registered in `active_connections`. -/
theorem connection_registry_invariant :
    ∀ (m : ConnectionManager) (sid uid req : String) (now : Nat)
      (fails : String → Bool) (dead : List (String × String)),
      Inv m →
      Inv (connect sid uid now m) ∧
      Inv (removeConnection sid uid m) ∧
      Inv (disconnect sid uid m) ∧
      Inv (broadcast req uid fails now m).1 ∧
      Inv (healthCheck dead m) := by
  intro m sid uid req now fails dead hm
  exact ⟨inv_connect sid uid now hm, inv_remove sid uid hm, inv_remove sid uid hm,
    inv_broadcast req uid fails now hm, inv_healthCheck dead hm⟩

/-- Witness for C10: the invariant theorem applied to a concrete registry
holding one registered connection. -/
theorem connection_registry_invariant_witness :
    Inv (connect "s2" "u1" 7 ⟨[("u1", ["s1"])], [("u1", [("s1", 0)])]⟩) ∧
    Inv (removeConnection "s2" "u1" ⟨[("u1", ["s1"])], [("u1", [("s1", 0)])]⟩) ∧
    Inv (disconnect "s2" "u1" ⟨[("u1", ["s1"])], [("u1", [("s1", 0)])]⟩) ∧
    Inv (broadcast "s1" "u1" (fun _ => false) 7 ⟨[("u1", ["s1"])], [("u1", [("s1", 0)])]⟩).1 ∧
    Inv (healthCheck [] ⟨[("u1", ["s1"])], [("u1", [("s1", 0)])]⟩) := by
  refine connection_registry_invariant ⟨[("u1", ["s1"])], [("u1", [("s1", 0)])]⟩
    "s2" "u1" "s1" 7 (fun _ => false) [] ⟨?_, ?_⟩
  · intro u l hget
    by_cases hu : "u1" = u
    · simp [getA, hu] at hget
      rw [← hget]
      simp
    · simp [getA, hu] at hget
  · intro u acts hget p hp
    by_cases hu : "u1" = u
    · simp [getA, hu] at hget
      rw [← hget] at hp
      simp at hp
      refine ⟨["s1"], by simp [getA, hu], ?_⟩
      rw [hp]
      simp
    · simp [getA, hu] at hget

/-! ### Recording state handlers (`app/routers/audio.py`, `handle_*_recording`)

The `Visit` document fields the handlers read and write.  In the store,
`recording_started_at`, `recording_duration` and `recording_finished_at`
are strings initialised to `''` by `create_visit`; the handlers treat the
empty string as absent (falsy) and otherwise parse it.  They are embedded
as `Option Int`: `none` is `''`, `some n` is the string of the integer
`n`.  Timestamps (`datetime.utcnow()`) are embedded as integer counts of
seconds, so `int((now - started).total_seconds())` is exactly `now - s`. -/

structure Visit where
  status : String
  recording_started_at : Option Int
  recording_duration : Option Int
  recording_finished_at : Option Int
  transcript : String
deriving DecidableEq, Repr

/-- A fresh visit as `create_visit` initialises it. -/
def freshVisit : Visit :=
  { status := "NOT_STARTED", recording_started_at := none, recording_duration := none,
    recording_finished_at := none, transcript := "" }

/-- Broadcast events the recording handlers emit through
`manager.broadcast` (the payload fields the claims read). -/
inductive VEvent
  | startRecording (visit_id : String) (started_at : Int)
  | pauseRecording (visit_id : String) (duration : Int)
  | resumeRecording (visit_id : String) (started_at : Int)
  | finishRecording (visit_id : String) (duration : Int) (transcript : String)
deriving DecidableEq, Repr

/-- `handle_start_recording`: unconditionally sets `status="RECORDING"` and
`recording_started_at=now`, then broadcasts a `start_recording` event.
The source checks no precondition on the visit's current status. -/
def handleStartRecording (now : Int) (vid : String) (v : Visit) : Visit × VEvent :=
  ({ v with status := "RECORDING", recording_started_at := some now },
    VEvent.startRecording vid now)

/-- `handle_pause_recording`: `old_duration = int(rd if rd else 0)`; when
`recording_started_at` is set, adds `int((utcnow - started).total_seconds())`;
sets `status="PAUSED"` and stores the new duration.  (`recording_started_at`
itself is not cleared.) -/
def handlePauseRecording (now : Int) (vid : String) (v : Visit) : Visit × VEvent :=
  let old_duration := v.recording_duration.getD 0
  let new_duration :=
    match v.recording_started_at with
    | some s => old_duration + (now - s)
    | none => old_duration
  ({ v with status := "PAUSED", recording_duration := some new_duration },
    VEvent.pauseRecording vid new_duration)

/-- `handle_resume_recording`: sets `status="RECORDING"` and a fresh
`recording_started_at=now`. -/
def handleResumeRecording (now : Int) (vid : String) (v : Visit) : Visit × VEvent :=
  ({ v with status := "RECORDING", recording_started_at := some now },
    VEvent.resumeRecording vid now)

/-- `handle_finish_recording`: same duration accumulation as pause, plus
`status="FINISHED"` and `recording_finished_at=now`; the broadcast carries
the full transcript and the final duration (note generation is fired
afterwards, asynchronously). -/
def handleFinishRecording (now : Int) (vid : String) (v : Visit) : Visit × VEvent :=
  let old_duration := v.recording_duration.getD 0
  let new_duration :=
    match v.recording_started_at with
    | some s => old_duration + (now - s)
    | none => old_duration
  let v1 : Visit :=
    { v with
        status := "FINISHED"
        recording_finished_at := some now
        recording_duration := some new_duration }
  (v1, VEvent.finishRecording vid new_duration v1.transcript)

/-- C3: pause and finish set the new `recording_duration` to the old one
(0 if unset) plus `now - recording_started_at`, and leave it at the old
value when `recording_started_at` is absent; the defs are total, so no
execution path raises.  In the end-to-end scenario start at t=0, pause at
t=10, resume at t=20, finish at t=50 the stored duration is 10 after the
pause and 40 after the finish. -/
theorem recording_duration_accumulation :
    (∀ (now : Int) (vid : String) (v : Visit),
      (handlePauseRecording now vid v).1.recording_duration =
        some (v.recording_duration.getD 0 +
          (match v.recording_started_at with | some s => now - s | none => 0)) ∧
      (handleFinishRecording now vid v).1.recording_duration =
        some (v.recording_duration.getD 0 +
          (match v.recording_started_at with | some s => now - s | none => 0))) ∧
    (handlePauseRecording 10 "v"
        (handleStartRecording 0 "v" freshVisit).1).1.recording_duration = some 10 ∧
    (handleFinishRecording 50 "v"
        (handleResumeRecording 20 "v"
          (handlePauseRecording 10 "v"
            (handleStartRecording 0 "v" freshVisit).1).1).1).1.recording_duration = some 40 := by
  refine ⟨?_, by decide, by decide⟩
  intro now vid v
  cases hs : v.recording_started_at with
  | none => simp [handlePauseRecording, handleFinishRecording, hs]
  | some s => simp [handlePauseRecording, handleFinishRecording, hs]

/-- C4 counterexample: `handle_start_recording` on a visit whose status is
already `RECORDING` is not rejected: it overwrites `recording_started_at`
(changing the Visit record) and emits a normal `start_recording` broadcast
rather than any error. -/
theorem start_recording_no_precondition_counterexample :
    (handleStartRecording 5 "v"
        ⟨"RECORDING", some 0, some 3, none, ""⟩).1.recording_started_at ≠
      (⟨"RECORDING", some 0, some 3, none, ""⟩ : Visit).recording_started_at ∧
    (handleStartRecording 5 "v" ⟨"RECORDING", some 0, some 3, none, ""⟩).2 =
      VEvent.startRecording "v" 5 := by
  decide

/-- C4 amended: a `start_recording` command for a visit already in status
`RECORDING` is accepted, not rejected: the handler checks no precondition,
re-sets `status="RECORDING"`, overwrites `recordingStartedAt` with the
current time (leaving `recordingDuration` and the transcript unchanged)
and broadcasts an ordinary `start_recording` event; no speech stream is
opened or closed by this control-path handler. -/
theorem start_recording_overwrites_when_already_recording :
    ∀ (now : Int) (vid : String) (v : Visit), v.status = "RECORDING" →
      (handleStartRecording now vid v).1.status = "RECORDING" ∧
      (handleStartRecording now vid v).1.recording_started_at = some now ∧
      (handleStartRecording now vid v).1.recording_duration = v.recording_duration ∧
      (handleStartRecording now vid v).1.transcript = v.transcript ∧
      (handleStartRecording now vid v).2 = VEvent.startRecording vid now := by
  intro now vid v _
  refine ⟨rfl, rfl, rfl, rfl, rfl⟩

/-- Witness for the amended C4 at a concrete already-recording visit. -/
theorem start_recording_overwrites_when_already_recording_witness :
    (handleStartRecording 5 "v" ⟨"RECORDING", some 0, some 3, none, ""⟩).1.status = "RECORDING" ∧
    (handleStartRecording 5 "v" ⟨"RECORDING", some 0, some 3, none, ""⟩).1.recording_started_at =
      some 5 ∧
    (handleStartRecording 5 "v" ⟨"RECORDING", some 0, some 3, none, ""⟩).1.recording_duration =
      (⟨"RECORDING", some 0, some 3, none, ""⟩ : Visit).recording_duration ∧
    (handleStartRecording 5 "v" ⟨"RECORDING", some 0, some 3, none, ""⟩).1.transcript =
      (⟨"RECORDING", some 0, some 3, none, ""⟩ : Visit).transcript ∧
    (handleStartRecording 5 "v" ⟨"RECORDING", some 0, some 3, none, ""⟩).2 =
      VEvent.startRecording "v" 5 :=
  start_recording_overwrites_when_already_recording 5 "v"
    ⟨"RECORDING", some 0, some 3, none, ""⟩ rfl

/-- C7 counterexample: the handlers add the raw delta `now - recordingStartedAt`
with no clamping, so with clock skew (now earlier than the stored start) a
pause decreases the stored duration from 100 to 60, and from an unset
duration it stores the negative value -40. -/
theorem duration_clock_skew_counterexample :
    (handlePauseRecording 10 "v"
        ⟨"RECORDING", some 50, some 100, none, ""⟩).1.recording_duration = some 60 ∧
    (60 : Int) < 100 ∧
    (handlePauseRecording 10 "v"
        ⟨"RECORDING", some 50, none, none, ""⟩).1.recording_duration = some (-40) := by
  decide

/-- C7 amended: `recordingDuration` is updated to the old value plus the raw
delta `now - recordingStartedAt` with no clamping, so it is non-negative and
non-decreasing only when the operation's wall clock is not behind the stored
start (and stays numerically unchanged under start/resume, which do not touch
it); a negative delta is applied as-is and can decrease the stored value. -/
theorem duration_monotone_without_clock_skew :
    (∀ (now : Int) (vid : String) (v : Visit),
      (handleStartRecording now vid v).1.recording_duration = v.recording_duration ∧
      (handleResumeRecording now vid v).1.recording_duration = v.recording_duration) ∧
    (∀ (now : Int) (vid : String) (v : Visit) (s : Int),
      v.recording_started_at = some s → s ≤ now →
      (v.recording_duration.getD 0 ≤
          (handlePauseRecording now vid v).1.recording_duration.getD 0 ∧
        v.recording_duration.getD 0 ≤
          (handleFinishRecording now vid v).1.recording_duration.getD 0) ∧
      (0 ≤ v.recording_duration.getD 0 →
        0 ≤ (handlePauseRecording now vid v).1.recording_duration.getD 0 ∧
        0 ≤ (handleFinishRecording now vid v).1.recording_duration.getD 0)) := by
  constructor
  · intro now vid v
    exact ⟨rfl, rfl⟩
  · intro now vid v s hs hle
    simp only [handlePauseRecording, handleFinishRecording, hs, Option.getD_some]
    constructor
    · constructor <;> omega
    · intro h0
      constructor <;> omega

/-- Witness for the amended C7 at a concrete skew-free pause/finish. -/
theorem duration_monotone_without_clock_skew_witness :
    ((handleStartRecording 9 "v"
        ⟨"PAUSED", some 0, some 4, none, ""⟩).1.recording_duration =
      (⟨"PAUSED", some 0, some 4, none, ""⟩ : Visit).recording_duration ∧
    (handleResumeRecording 9 "v"
        ⟨"PAUSED", some 0, some 4, none, ""⟩).1.recording_duration =
      (⟨"PAUSED", some 0, some 4, none, ""⟩ : Visit).recording_duration) ∧
    (((⟨"RECORDING", some 2, some 4, none, ""⟩ : Visit).recording_duration.getD 0 ≤
        (handlePauseRecording 9 "v"
          ⟨"RECORDING", some 2, some 4, none, ""⟩).1.recording_duration.getD 0 ∧
      (⟨"RECORDING", some 2, some 4, none, ""⟩ : Visit).recording_duration.getD 0 ≤
        (handleFinishRecording 9 "v"
          ⟨"RECORDING", some 2, some 4, none, ""⟩).1.recording_duration.getD 0) ∧
    (0 ≤ (⟨"RECORDING", some 2, some 4, none, ""⟩ : Visit).recording_duration.getD 0 →
      0 ≤ (handlePauseRecording 9 "v"
            ⟨"RECORDING", some 2, some 4, none, ""⟩).1.recording_duration.getD 0 ∧
      0 ≤ (handleFinishRecording 9 "v"
            ⟨"RECORDING", some 2, some 4, none, ""⟩).1.recording_duration.getD 0)) :=
  ⟨(duration_monotone_without_clock_skew.1 9 "v" ⟨"PAUSED", some 0, some 4, none, ""⟩),
    duration_monotone_without_clock_skew.2 9 "v"
      ⟨"RECORDING", some 2, some 4, none, ""⟩ 2 rfl (by decide)⟩

/-! ### Transcript assembly (`Transcriber._on_transcript`,
`Transcriber._store_transcript` in `app/routers/audio.py`)

A Deepgram transcript event carries `{transcript, is_final, speech_final}`;
the guard for a missing channel or empty alternatives behaves exactly like
an empty transcript (the handler returns without touching anything).
`self.is_finals` is the ordered fragment buffer.  The stored timestamp is
`datetime.utcnow().isoformat()` rendered by `strftime` as zero-padded
`HH:MM:SS`; a wall-clock time of day is embedded as its three numeric
fields, each below 100 so two digits render it exactly. -/

structure DGResult where
  transcript : String
  is_final : Bool
  speech_final : Bool
deriving DecidableEq, Repr

/-- One `_on_transcript` callback on the fragment buffer: empty or interim
text leaves the buffer alone; a final fragment is appended; when the
fragment is also `speech_final` the buffer is joined space-separated into
one utterance, the buffer is cleared and the utterance is handed to
`_store_transcript`. -/
def onTranscript (r : DGResult) (finals : List String) : List String × Option String :=
  if r.transcript = "" then (finals, none)
  else if r.is_final then
    let finals' := finals ++ [r.transcript]
    if r.speech_final then ([], some (String.intercalate " " finals'))
    else (finals', none)
  else (finals, none)

/-- A wall-clock time of day (hour, minute, second). -/
structure HMS where
  hh : Nat
  mm : Nat
  ss : Nat
deriving DecidableEq, Repr

/-- The `strftime` rendering of a time of day as zero-padded `HH:MM:SS`. -/
def fmtHMS (t : HMS) : String :=
  String.mk [Nat.digitChar (t.hh / 10 % 10), Nat.digitChar (t.hh % 10), ':',
    Nat.digitChar (t.mm / 10 % 10), Nat.digitChar (t.mm % 10), ':',
    Nat.digitChar (t.ss / 10 % 10), Nat.digitChar (t.ss % 10)]

/-- The line `_store_transcript` formats for one utterance. -/
def lineOf (t : HMS) (text : String) : String :=
  "[" ++ fmtHMS t ++ "] " ++ text

/-- `Transcriber._store_transcript`: read the visit's current transcript,
format the utterance as `[HH:MM:SS] <text>`, append after a newline when
prior content exists (the new line alone otherwise), and write back. -/
def storeTranscript (current : String) (t : HMS) (text : String) : String :=
  let new_transcript := lineOf t text
  if current = "" then new_transcript else current ++ "\n" ++ new_transcript

theorem digitChar_ne_newline {d : Nat} (h : d < 10) : Nat.digitChar d ≠ '\n' := by
  interval_cases d <;> decide

theorem newline_not_in_fmtHMS (t : HMS) : '\n' ∉ (fmtHMS t).data := by
  intro hmem
  simp only [fmtHMS, String.data, List.mem_cons, List.not_mem_nil, or_false] at hmem
  rcases hmem with h | h | h | h | h | h | h | h
  all_goals first
    | exact digitChar_ne_newline (Nat.mod_lt _ (by omega)) h.symm
    | exact absurd h (by decide)

/-- C2: streaming two interim fragments followed by one final+speech-final
fragment leaves nothing in the buffer for the interims and stores nothing;
the final fragment joins the buffer into the single utterance
"Patient reports headache for two days", clears the buffer, and storing it
into an empty transcript yields exactly the one line
`[HH:MM:SS] Patient reports headache for two days` (the result contains no
newline, hence is a single line). -/
theorem interim_then_final_single_line :
    ∀ t : HMS,
      (onTranscript ⟨"Patient reports", false, false⟩ []).1 = [] ∧
      (onTranscript ⟨"Patient reports", false, false⟩ []).2 = none ∧
      (onTranscript ⟨"Patient reports headache", false, false⟩
        (onTranscript ⟨"Patient reports", false, false⟩ []).1).1 = [] ∧
      (onTranscript ⟨"Patient reports headache", false, false⟩
        (onTranscript ⟨"Patient reports", false, false⟩ []).1).2 = none ∧
      (onTranscript ⟨"Patient reports headache for two days", true, true⟩
        (onTranscript ⟨"Patient reports headache", false, false⟩
          (onTranscript ⟨"Patient reports", false, false⟩ []).1).1).1 = [] ∧
      (onTranscript ⟨"Patient reports headache for two days", true, true⟩
        (onTranscript ⟨"Patient reports headache", false, false⟩
          (onTranscript ⟨"Patient reports", false, false⟩ []).1).1).2 =
        some "Patient reports headache for two days" ∧
      storeTranscript "" t "Patient reports headache for two days" =
        "[" ++ fmtHMS t ++ "] " ++ "Patient reports headache for two days" ∧
      '\n' ∉ (storeTranscript "" t "Patient reports headache for two days").data := by
  intro t
  refine ⟨by decide, by decide, by decide, by decide, by decide, by decide, ?_, ?_⟩
  · simp [storeTranscript, lineOf]
  · intro hmem
    have hmem2 : '\n' ∈
        ("[" ++ fmtHMS t ++ "] " ++ "Patient reports headache for two days").data := hmem
    rw [String.data_append, String.data_append, String.data_append] at hmem2
    rcases List.mem_append.mp hmem2 with h | h
    · rcases List.mem_append.mp h with h2 | h2
      · rcases List.mem_append.mp h2 with h3 | h3
        · exact absurd h3 (by decide)
        · exact newline_not_in_fmtHMS t h3
      · exact absurd h2 (by decide)
    · exact absurd h (by decide)

theorem lineOf_ne_empty (t : HMS) (text : String) : lineOf t text ≠ "" := by
  intro h
  have hd := congrArg String.data h
  simp [lineOf, String.data_append] at hd

/-- C8: a single store reads the current transcript and appends the
formatted line `[HH:MM:SS] <text>` after a newline exactly when prior
content exists (otherwise the line is the whole transcript); consequently
storing utterance U1 at t1 and then U2 at t2 produces a transcript in
which the line for U1 occurs strictly before the line for U2. -/
theorem store_appends_in_order :
    (∀ (T : String) (t : HMS) (u : String),
      storeTranscript T t u = if T = "" then lineOf t u else T ++ "\n" ++ lineOf t u) ∧
    (∀ (T : String) (t1 t2 : HMS) (u1 u2 : String),
      storeTranscript (storeTranscript T t1 u1) t2 u2 =
        (if T = "" then lineOf t1 u1 else T ++ "\n" ++ lineOf t1 u1) ++
          "\n" ++ lineOf t2 u2) := by
  constructor
  · intro T t u
    rfl
  · intro T t1 t2 u1 u2
    by_cases hT : T = ""
    · simp [storeTranscript, hT, lineOf_ne_empty t1 u1]
    · have h1 : storeTranscript T t1 u1 = T ++ "\n" ++ lineOf t1 u1 := by
        simp [storeTranscript, hT]
      have hne : T ++ "\n" ++ lineOf t1 u1 ≠ "" := by
        intro h
        have hd := congrArg String.data h
        simp [String.data_append] at hd
      rw [h1]
      simp [storeTranscript, hT, hne]

/-! ### Speech-stream reconnection (`Transcriber` in `app/routers/audio.py`)

The connection-management state of one `Transcriber`: `connection`
(embedded as whether it is non-None), `is_connected`,
`reconnect_attempts`, `reconnect_delay` and the `reconnecting` re-entrancy
guard; `max_reconnect_attempts` is the constant 5.  Whether a Deepgram
connect or a frame send succeeds is an explicit outcome parameter.  Side
effects are returned as a list: `asyncio.sleep` durations, log lines
(messages abbreviated, without their formatted arguments), and any
broadcast event sent to clients through the connection manager. -/

structure RState where
  conn_some : Bool
  is_connected : Bool
  reconnect_attempts : Nat
  reconnect_delay : Nat
  reconnecting : Bool
deriving DecidableEq, Repr

def maxReconnectAttempts : Nat := 5

inductive TEffect
  | sleep (d : Nat)
  | log (msg : String)
  | broadcastEvent (etype : String)
deriving DecidableEq, Repr

/-- The `Transcriber.__init__` connection state. -/
def initRState : RState := ⟨false, false, 0, 1, false⟩

/-- `Transcriber.connect` as executed while the caller holds the
`reconnecting` guard: `_cleanup_connection` first (connection dropped,
`is_connected=False`), then on success `is_connected=True`,
`reconnect_attempts=0`, `reconnect_delay=1`; on failure the error is
logged, `is_connected=False`, and the nested `_attempt_reconnect` call
returns immediately because the guard is set (theorem
`reconnect_guard_reentrancy` below). -/
def connectUnderGuard (ok : Bool) (s : RState) : RState × List TEffect :=
  if ok then
    (⟨true, true, 0, 1, s.reconnecting⟩, [])
  else
    (⟨false, false, s.reconnect_attempts, s.reconnect_delay, s.reconnecting⟩,
      [TEffect.log "Failed to connect to Deepgram"])

/-- `Transcriber._attempt_reconnect`: return immediately when already
reconnecting or when `max_reconnect_attempts` attempts have been made;
otherwise set the guard, count the attempt, sleep the current backoff
delay, double the delay up to the 30-unit cap, run `connect`, clear the
guard, and log the terminal failure line when the attempt counter has
reached the maximum. -/
def attemptReconnect (ok : Bool) (s : RState) : RState × List TEffect :=
  if s.reconnecting || decide (maxReconnectAttempts ≤ s.reconnect_attempts) then (s, [])
  else
    let s1 : RState := ⟨s.conn_some, s.is_connected, s.reconnect_attempts + 1,
      s.reconnect_delay, true⟩
    let slept := s1.reconnect_delay
    let s2 : RState := ⟨s1.conn_some, s1.is_connected, s1.reconnect_attempts,
      min (s1.reconnect_delay * 2) 30, s1.reconnecting⟩
    let rc := connectUnderGuard ok s2
    let s3 : RState := ⟨rc.1.conn_some, rc.1.is_connected, rc.1.reconnect_attempts,
      rc.1.reconnect_delay, false⟩
    let effs := [TEffect.log "Attempting to reconnect to Deepgram",
      TEffect.sleep slept] ++ rc.2
    if maxReconnectAttempts ≤ s3.reconnect_attempts then
      (s3, effs ++ [TEffect.log "Failed to reconnect to Deepgram after max attempts"])
    else (s3, effs)

/-- `Transcriber.send_audio`: forward the frame when a connection object
exists and is connected (a send failure is caught: it is logged, the
session is marked disconnected, and a reconnection attempt is made); when
not connected and not already reconnecting, attempt reconnection; the
frame itself is dropped in every failure path and no branch raises. -/
def sendAudio (sendOk reconnectOk : Bool) (s : RState) : RState × List TEffect :=
  if s.conn_some && s.is_connected then
    if sendOk then (s, [])
    else
      let r := attemptReconnect reconnectOk
        ⟨s.conn_some, false, s.reconnect_attempts, s.reconnect_delay, s.reconnecting⟩
      (r.1, TEffect.log "Error sending audio data" :: r.2)
  else if !s.is_connected && !s.reconnecting then attemptReconnect reconnectOk s
  else (s, [])

/-- A sequence of reconnect triggers (from `send_audio`, `_on_error`, or a
failed `connect`), each with its connect outcome, run in order. -/
def runReconnects : List Bool → RState → RState × List TEffect
  | [], s => (s, [])
  | ok :: rest, s =>
    let r := attemptReconnect ok s
    let r2 := runReconnects rest r.1
    (r2.1, r.2 ++ r2.2)

def sleepsOf (effs : List TEffect) : List Nat :=
  effs.filterMap (fun e => match e with | TEffect.sleep d => some d | _ => none)

def isBroadcastEffect (e : TEffect) : Bool :=
  match e with | TEffect.broadcastEvent _ => true | _ => false

/-- The connection state after `k` consecutive failed reconnection
attempts from a fresh session. -/
def failState (k : Nat) : RState := ⟨false, false, k, min (2 ^ k) 30, false⟩

theorem initRState_eq_failState : initRState = failState 0 := by decide

theorem attempt_fail_step (k : Nat) (h : k < 5) :
    attemptReconnect false (failState k) =
      (failState (k + 1),
        [TEffect.log "Attempting to reconnect to Deepgram",
          TEffect.sleep (min (2 ^ k) 30),
          TEffect.log "Failed to connect to Deepgram"] ++
        (if k + 1 = 5 then
          [TEffect.log "Failed to reconnect to Deepgram after max attempts"] else [])) := by
  have hguard : ((failState k).reconnecting ||
      decide (maxReconnectAttempts ≤ (failState k).reconnect_attempts)) = false := by
    simp only [failState, maxReconnectAttempts]
    simp
    omega
  have hmin : min (min (2 ^ k) 30 * 2) 30 = min (2 ^ (k + 1)) 30 := by
    have h2 : 2 ^ (k + 1) = 2 ^ k * 2 := by ring
    rw [h2]
    omega
  rw [attemptReconnect, if_neg (by rw [hguard]; exact Bool.false_ne_true)]
  simp only [connectUnderGuard, failState, maxReconnectAttempts, if_neg Bool.false_ne_true]
  by_cases h5 : k + 1 = 5
  · rw [if_pos h5]
    have : (5 : Nat) ≤ k + 1 := le_of_eq h5.symm
    simp only [this, if_pos this]
    rw [Prod.mk.injEq]
    constructor
    · rw [RState.mk.injEq]
      refine ⟨rfl, rfl, rfl, hmin, rfl⟩
    · rfl
  · rw [if_neg h5]
    have h5' : ¬ ((5 : Nat) ≤ k + 1) := by omega
    simp only [h5', if_neg h5']
    rw [Prod.mk.injEq]
    constructor
    · rw [RState.mk.injEq]
      refine ⟨rfl, rfl, rfl, hmin, rfl⟩
    · simp

theorem attempt_exhausted (ok : Bool) (s : RState)
    (h : maxReconnectAttempts ≤ s.reconnect_attempts) :
    attemptReconnect ok s = (s, []) := by
  rw [attemptReconnect, if_pos]
  simp [h]

/-- The `reconnecting` flag short-circuits `_attempt_reconnect`: a
re-entrant call (such as the one a failing `connect` makes from inside an
ongoing attempt) returns immediately without touching the state or
sleeping. -/
theorem reconnect_guard_reentrancy (ok : Bool) (s : RState)
    (h : s.reconnecting = true) : attemptReconnect ok s = (s, []) := by
  rw [attemptReconnect, if_pos]
  simp [h]

theorem sleepsOf_append (a b : List TEffect) :
    sleepsOf (a ++ b) = sleepsOf a ++ sleepsOf b := by
  simp [sleepsOf]

theorem runReconnects_failState (n k : Nat) (hk : k ≤ 5) :
    (runReconnects (List.replicate n false) (failState k)).1 =
      failState (min (k + n) 5) ∧
    sleepsOf (runReconnects (List.replicate n false) (failState k)).2 =
      (List.range (min n (5 - k))).map (fun i => min (2 ^ (k + i)) 30) := by
  induction n generalizing k with
  | zero =>
    have hmin : min (k + 0) 5 = k := by omega
    have hmin2 : min 0 (5 - k) = 0 := by omega
    rw [hmin, hmin2]
    simp [runReconnects, sleepsOf]
  | succ n ih =>
    by_cases hlt : k < 5
    · have hstep := attempt_fail_step k hlt
      have hrec := ih (k + 1) (by omega)
      have hsleep1 : sleepsOf
          ([TEffect.log "Attempting to reconnect to Deepgram",
            TEffect.sleep (min (2 ^ k) 30),
            TEffect.log "Failed to connect to Deepgram"] ++
          (if k + 1 = 5 then
            [TEffect.log "Failed to reconnect to Deepgram after max attempts"]
          else [])) = [min (2 ^ k) 30] := by
        by_cases h5 : k + 1 = 5
        · rw [if_pos h5]
          simp [sleepsOf]
        · rw [if_neg h5]
          simp [sleepsOf]
      constructor
      · rw [show List.replicate (n + 1) false = false :: List.replicate n false from rfl]
        rw [runReconnects]
        simp only [hstep]
        rw [hrec.1]
        congr 1
        omega
      · rw [show List.replicate (n + 1) false = false :: List.replicate n false from rfl]
        rw [runReconnects]
        simp only [hstep]
        rw [sleepsOf_append, hsleep1, hrec.2]
        have hrange : min (n + 1) (5 - k) = (min n (5 - (k + 1))) + 1 := by omega
        rw [hrange, List.range_succ_eq_map, List.map_cons, List.map_map]
        refine List.cons_eq_cons.mpr ⟨?_, ?_⟩
        · show min (2 ^ k) 30 = min (2 ^ (k + 0)) 30
          rw [Nat.add_zero]
        · apply List.map_congr_left
          intro i hi
          simp only [Function.comp]
          have harg : k + 1 + i = k + (i + 1) := by omega
          rw [harg]
    · have hk5 : k = 5 := by omega
      subst hk5
      have hstep := attempt_exhausted false (failState 5) (by rw [maxReconnectAttempts]; rfl)
      constructor
      · rw [show List.replicate (n + 1) false = false :: List.replicate n false from rfl]
        rw [runReconnects]
        simp only [hstep]
        rw [(ih 5 (by omega)).1]
        congr 1
        omega
      · rw [show List.replicate (n + 1) false = false :: List.replicate n false from rfl]
        rw [runReconnects]
        simp only [hstep]
        rw [List.nil_append, (ih 5 (by omega)).2]
        have : min n (5 - 5) = min (n + 1) (5 - 5) := by omega
        rw [this]

/-- C5: a session's reconnection attempts are bounded by 5: the guard
returns immediately once 5 attempts have been made, so the attempt counter
never exceeds 5; the `reconnecting` flag makes a re-entrant call return
immediately, preventing overlapping attempts; and over any run of failing
attempts from a fresh session the sequence of slept delays is exactly
`min 2^0 30, min 2^1 30, ...` for `min n 5` attempts — i.e. the delay slept
before reconnection attempt `j` (equivalently, between overall connection
attempt `n = j` and attempt `n + 1`) is `min (2 ^ (n - 1)) 30`, starting at
1 and doubling up to the 30-unit cap. -/
theorem reconnect_backoff_spec :
    (∀ (ok : Bool) (s : RState), s.reconnecting = true →
      attemptReconnect ok s = (s, [])) ∧
    (∀ (ok : Bool) (s : RState), maxReconnectAttempts ≤ s.reconnect_attempts →
      attemptReconnect ok s = (s, [])) ∧
    (∀ (ok : Bool) (s : RState),
      (attemptReconnect ok s).1.reconnect_attempts ≤
        max s.reconnect_attempts maxReconnectAttempts) ∧
    (∀ n : Nat,
      sleepsOf (runReconnects (List.replicate n false) initRState).2 =
        (List.range (min n 5)).map (fun k => min (2 ^ k) 30)) := by
  refine ⟨reconnect_guard_reentrancy, attempt_exhausted, ?_, ?_⟩
  · intro ok s
    by_cases hg : (s.reconnecting ||
        decide (maxReconnectAttempts ≤ s.reconnect_attempts)) = true
    · rw [attemptReconnect, if_pos hg]
      exact le_max_left _ _
    · rw [attemptReconnect, if_neg hg]
      simp only [Bool.or_eq_true, decide_eq_true_eq, maxReconnectAttempts] at hg
      push_neg at hg
      cases ok
      · simp only [connectUnderGuard, Bool.false_eq_true, if_false, maxReconnectAttempts]
        split
        · simp only []
          omega
        · simp only []
          omega
      · simp only [connectUnderGuard, if_true, maxReconnectAttempts]
        split
        · simp only []
          omega
        · simp only []
          omega
  · intro n
    rw [initRState_eq_failState]
    have h := (runReconnects_failState n 0 (by omega)).2
    rw [h]
    have h50 : 5 - 0 = 5 := by omega
    rw [h50]
    apply List.map_congr_left
    intro i hi
    rw [Nat.zero_add]

/-- C6 counterexample: running the five failing reconnection attempts of a
fresh session produces the terminal failure log line, but the complete
effect trace contains no broadcast event at all — in particular no `error`
event is sent to the connected clients (the exhaustion is only logged). -/
theorem no_error_broadcast_on_exhaustion_counterexample :
    (TEffect.log "Failed to reconnect to Deepgram after max attempts") ∈
      (runReconnects (List.replicate 5 false) initRState).2 ∧
    (runReconnects (List.replicate 5 false) initRState).2.filter isBroadcastEffect = [] := by
  decide

/-- C6 amended: after the 5th failed reconnection attempt the session is
abandoned — every further `_attempt_reconnect` call returns immediately
with no sleep and no state change; the terminal failure is only logged,
and no `error` (or any other) broadcast event is emitted to clients by the
reconnection path; and a failing `send_audio` is caught rather than
raised: it logs the error, marks the session disconnected and delegates to
`_attempt_reconnect`, returning normally. -/
theorem exhausted_retry_behavior :
    (runReconnects (List.replicate 5 false) initRState).1 = failState 5 ∧
    (∀ ok : Bool,
      attemptReconnect ok (runReconnects (List.replicate 5 false) initRState).1 =
        ((runReconnects (List.replicate 5 false) initRState).1, [])) ∧
    (TEffect.log "Failed to reconnect to Deepgram after max attempts") ∈
      (runReconnects (List.replicate 5 false) initRState).2 ∧
    (runReconnects (List.replicate 5 false) initRState).2.filter isBroadcastEffect = [] ∧
    (∀ (reconnectOk : Bool) (s : RState),
      s.conn_some = true → s.is_connected = true →
      sendAudio false reconnectOk s =
        ((attemptReconnect reconnectOk
            ⟨s.conn_some, false, s.reconnect_attempts, s.reconnect_delay,
              s.reconnecting⟩).1,
          TEffect.log "Error sending audio data" ::
            (attemptReconnect reconnectOk
              ⟨s.conn_some, false, s.reconnect_attempts, s.reconnect_delay,
                s.reconnecting⟩).2)) := by
  refine ⟨by decide, ?_, by decide, by decide, ?_⟩
  · intro ok
    cases ok <;> decide
  · intro reconnectOk s hconn hic
    simp [sendAudio, hconn, hic]

/-! ### Implicit pause on client disconnect (`websocket_endpoint` in
`app/routers/user.py`)

The per-connection loop tracks, in `active_recordings`, the visits this
connection started or resumed (start/resume append; pause/finish remove,
with a `list.remove` failure swallowed).  On `WebSocketDisconnect` it
runs, for each tracked visit, the same duration-finalising pause update as
`handle_pause_recording` and broadcasts a `pause_recording` event.  A
visit missing from the store would raise out of the source's disconnect
loop; the theorem below therefore assumes every tracked visit exists. -/

def activeRecordingsStep (mtype vid : String) (ars : List String) : List String :=
  if mtype = "start_recording" then ars ++ [vid]
  else if mtype = "pause_recording" then ars.erase vid
  else if mtype = "resume_recording" then ars ++ [vid]
  else if mtype = "finish_recording" then ars.erase vid
  else ars

def onDisconnectGo (now : Int) :
    List String → List (String × Visit) → List VEvent →
      List (String × Visit) × List VEvent
  | [], db, evs => (db, evs)
  | vid :: rest, db, evs =>
    match getA vid db with
    | none => onDisconnectGo now rest db evs
    | some v =>
      let r := handlePauseRecording now vid v
      onDisconnectGo now rest (setA vid r.1 db) (evs ++ [r.2])

/-- The disconnect handler: pause every tracked visit and broadcast the
corresponding `pause_recording` events, in order. -/
def onDisconnect (now : Int) (ars : List String) (db : List (String × Visit)) :
    List (String × Visit) × List VEvent :=
  onDisconnectGo now ars db []

theorem onDisconnectGo_getA_of_not_mem (now : Int) :
    ∀ (l : List String) (db : List (String × Visit)) (evs : List VEvent) (vid : String),
      vid ∉ l → getA vid (onDisconnectGo now l db evs).1 = getA vid db := by
  intro l
  induction l with
  | nil => intro db evs vid _; rfl
  | cons u rest ih =>
    intro db evs vid hnm
    have hu : vid ≠ u := fun h => hnm (by rw [h]; exact List.mem_cons_self u rest)
    have hrest : vid ∉ rest := fun h => hnm (List.mem_cons_of_mem u h)
    cases hdb : getA u db with
    | none =>
      rw [onDisconnectGo, hdb]
      exact ih db evs vid hrest
    | some v =>
      rw [onDisconnectGo, hdb]
      rw [ih _ _ vid hrest]
      exact getA_setA_ne _ _ hu

theorem onDisconnectGo_evs_mono (now : Int) :
    ∀ (l : List String) (db : List (String × Visit)) (evs : List VEvent) (e : VEvent),
      e ∈ evs → e ∈ (onDisconnectGo now l db evs).2 := by
  intro l
  induction l with
  | nil => intro db evs e he; exact he
  | cons u rest ih =>
    intro db evs e he
    cases hdb : getA u db with
    | none =>
      rw [onDisconnectGo, hdb]
      exact ih db evs e he
    | some v =>
      rw [onDisconnectGo, hdb]
      exact ih _ _ e (List.mem_append_left _ he)

theorem onDisconnectGo_spec (now : Int) :
    ∀ (l : List String) (db : List (String × Visit)) (evs : List VEvent)
      (vid : String) (v : Visit),
      l.Nodup → vid ∈ l → getA vid db = some v →
      getA vid (onDisconnectGo now l db evs).1 = some (handlePauseRecording now vid v).1 ∧
      (handlePauseRecording now vid v).2 ∈ (onDisconnectGo now l db evs).2 := by
  intro l
  induction l with
  | nil => intro db evs vid v _ hmem; exact absurd hmem (List.not_mem_nil vid)
  | cons u rest ih =>
    intro db evs vid v hnd hmem hdbv
    have hndrest := (List.nodup_cons.mp hnd).2
    have hurest := (List.nodup_cons.mp hnd).1
    by_cases hv : u = vid
    · subst hv
      rw [onDisconnectGo, hdbv]
      have hnm : u ∉ rest := hurest
      constructor
      · rw [onDisconnectGo_getA_of_not_mem now rest _ _ u hnm]
        exact getA_setA_self _ _ _
      · exact onDisconnectGo_evs_mono now rest _ _ _
          (List.mem_append_right _ (List.mem_singleton.mpr rfl))
    · have hmem' : vid ∈ rest := by
        rcases List.mem_cons.mp hmem with h | h
        · exact absurd h.symm hv
        · exact h
      cases hdb : getA u db with
      | none =>
        rw [onDisconnectGo, hdb]
        exact ih db evs vid v hndrest hmem' hdbv
      | some vu =>
        rw [onDisconnectGo, hdb]
        refine ih _ _ vid v hndrest hmem' ?_
        rw [getA_setA_ne _ _ (fun h => hv h.symm)]
        exact hdbv

/-- C9: a connection's `start_recording` or `resume_recording` puts the
visit into that connection's tracked list, and on abnormal disconnect every
tracked visit is implicitly paused: its stored record becomes the
`handle_pause_recording` update — status `PAUSED`, duration finalised by
adding the elapsed `now - recordingStartedAt` (unchanged when the start
timestamp is absent) — and a `pause_recording` event carrying the updated
duration is broadcast to the user's remaining connections. -/
theorem disconnect_implicit_pause :
    ∀ (now : Int) (ars ars0 : List String) (db : List (String × Visit))
      (vid : String) (v : Visit),
      ars.Nodup → vid ∈ ars → getA vid db = some v →
      (∀ u ∈ ars, (getA u db).isSome = true) →
      (vid ∈ activeRecordingsStep "start_recording" vid ars0 ∧
        vid ∈ activeRecordingsStep "resume_recording" vid ars0) ∧
      getA vid (onDisconnect now ars db).1 = some (handlePauseRecording now vid v).1 ∧
      (handlePauseRecording now vid v).1.status = "PAUSED" ∧
      (handlePauseRecording now vid v).1.recording_duration =
        some (v.recording_duration.getD 0 +
          (match v.recording_started_at with | some s => now - s | none => 0)) ∧
      (handlePauseRecording now vid v).2 ∈ (onDisconnect now ars db).2 := by
  intro now ars ars0 db vid v hnd hmem hdbv _
  have hspec := onDisconnectGo_spec now ars db [] vid v hnd hmem hdbv
  refine ⟨⟨?_, ?_⟩, hspec.1, rfl, ?_, hspec.2⟩
  · simp [activeRecordingsStep]
  · simp [activeRecordingsStep]
  · cases hs : v.recording_started_at <;>
      simp [handlePauseRecording, hs]

/-- Witness for C9: one tracked recording visit, paused by the disconnect
handler at t=30 after starting at t=10 with 5 seconds already accumulated. -/
theorem disconnect_implicit_pause_witness :
    (("v1" : String) ∈ activeRecordingsStep "start_recording" "v1" [] ∧
      ("v1" : String) ∈ activeRecordingsStep "resume_recording" "v1" []) ∧
    getA "v1" (onDisconnect 30 ["v1"]
        [("v1", ⟨"RECORDING", some 10, some 5, none, "tx"⟩)]).1 =
      some (handlePauseRecording 30 "v1" ⟨"RECORDING", some 10, some 5, none, "tx"⟩).1 ∧
    (handlePauseRecording 30 "v1"
        ⟨"RECORDING", some 10, some 5, none, "tx"⟩).1.status = "PAUSED" ∧
    (handlePauseRecording 30 "v1"
        ⟨"RECORDING", some 10, some 5, none, "tx"⟩).1.recording_duration =
      some ((⟨"RECORDING", some 10, some 5, none, "tx"⟩ : Visit).recording_duration.getD 0 +
        (match (⟨"RECORDING", some 10, some 5, none, "tx"⟩ : Visit).recording_started_at with
          | some s => 30 - s | none => 0)) ∧
    (handlePauseRecording 30 "v1" ⟨"RECORDING", some 10, some 5, none, "tx"⟩).2 ∈
      (onDisconnect 30 ["v1"] [("v1", ⟨"RECORDING", some 10, some 5, none, "tx"⟩)]).2 :=
  disconnect_implicit_pause 30 ["v1"] [] [("v1", ⟨"RECORDING", some 10, some 5, none, "tx"⟩)]
    "v1" ⟨"RECORDING", some 10, some 5, none, "tx"⟩
    (List.nodup_singleton "v1") (List.mem_singleton.mpr rfl) (by decide) (by decide)

end Halo
